import Mathlib

/-!
Shallow embedding of the consensus-orchestration core of `snarkOS.fork`
(`src/node/consensus/src/lib.rs`): the `Consensus` aggregate over a ledger
handle, a memory pool of unconfirmed transactions and prover solutions, a
one-time-initialized primary sender, and a registry of background task
handles.  External collaborators (the ledger, the BFT ordering engine, the
channels) and the repository's `memory_pool` module (declared by `lib.rs`
but not present in the sources) are modelled at the interface the spec
describes for them.  Machine integers (`u32`/`u64`/`u128` targets, heights,
epoch numbers) are modelled as `Nat`: every arithmetic operation performed
on them here is a comparison or a sum of widened values, so no overflow
wrapping arises in the embedded fragment.
-/

deriving instance DecidableEq for Except

/-- A validator address (content identity only). -/
abbrev Addr := Nat

/-- An unconfirmed transaction, identified by its content-derived id
(`transaction.id()`). -/
structure Tx where
  id : Nat
  deriving DecidableEq

/-- An unconfirmed prover solution, identified by its content-derived
commitment (`solution.commitment()`), carrying the information needed for
the cumulative proof-target computation. -/
structure Solution where
  commitment : Nat
  target : Nat
  deriving DecidableEq

/-- A block, exposing the accessors the consensus core reads:
`height()`, `epoch_number()`, `proof_target()`, `coinbase_target()`, and
whether `coinbase()` is `Some` (`hasCoinbase`). -/
structure Block where
  height : Nat
  epochNumber : Nat
  proofTarget : Nat
  coinbaseTarget : Nat
  hasCoinbase : Bool
  deriving DecidableEq

/-- The ledger: the canonical chain, as latest block plus prior history.
The consensus core reads it through the accessors below and mutates it only
through `advanceToNextBlock`. -/
structure LedgerState where
  latestBlock : Block
  priorBlocks : List Block
  deriving DecidableEq

/-- Accessor `ledger.latest_height()`. -/
def LedgerState.latestHeight (l : LedgerState) : Nat :=
  l.latestBlock.height

/-- Accessor `ledger.latest_epoch_number()`: the epoch number of the chain head. -/
def LedgerState.latestEpochNumber (l : LedgerState) : Nat :=
  l.latestBlock.epochNumber

/-- Accessor `ledger.latest_proof_target()`. -/
def LedgerState.latestProofTarget (l : LedgerState) : Nat :=
  l.latestBlock.proofTarget

/-- Accessor `ledger.latest_coinbase_target()`. -/
def LedgerState.latestCoinbaseTarget (l : LedgerState) : Nat :=
  l.latestBlock.coinbaseTarget

/-- Modelled from the spec: the external Ledger's mutating operation
`advance_to_next_block(&block) -> () | Error` ("advance to an accepted
block"); full block validation is the Ledger's responsibility and is
unspecified, so the model keeps the minimal chain rule (the accepted block
must sit directly on the current head); on success the block becomes the
chain head. -/
def LedgerState.advanceToNextBlock (l : LedgerState) (b : Block) :
    Except String LedgerState :=
  if b.height = l.latestBlock.height + 1 then
    .ok { latestBlock := b, priorBlocks := l.latestBlock :: l.priorBlocks }
  else
    .error "ledger: block validation failed"

/-- Modelled from the spec: the external Ledger's
`prepare_advance_to_next_block(key, txs, solutions, rng) -> Block | Error`:
assembles a structurally valid candidate block on top of the current head
from the candidate transactions and solutions, the signing key and the
randomness source, without mutating the chain. -/
def LedgerState.prepareAdvanceToNextBlock (l : LedgerState) (privateKey : Nat)
    (transactions : List Tx) (solutions : List Solution) (rng : Nat) :
    Except String Block :=
  .ok
    { height := l.latestBlock.height + 1
      epochNumber := l.latestBlock.epochNumber
      proofTarget := l.latestBlock.proofTarget
      coinbaseTarget := l.latestBlock.coinbaseTarget
      hasCoinbase := !solutions.isEmpty }

/-- The memory pool: two unconfirmed-entry collections keyed by content id
(`transactions` by transaction id, `solutions` by commitment). -/
structure MemoryPool where
  transactions : List (Nat × Tx)
  solutions : List (Nat × Solution)
  deriving DecidableEq

/-- Modelled from the spec: `candidate_transactions(ctx)` of the missing
`memory_pool` module — a deterministic ordered sequence of the pending
transactions suitable for one block. -/
def MemoryPool.candidateTransactions (p : MemoryPool) : List Tx :=
  p.transactions.map (·.2)

/-- Modelled from the spec: `candidate_solutions(ctx, height, proof_target,
coinbase_target)` of the missing `memory_pool` module — a deterministic
selection of pooled solutions toward the coinbase target; the model keeps
the solutions whose target meets the proof target, in pool order. -/
def MemoryPool.candidateSolutions (p : MemoryPool)
    (height proofTarget coinbaseTarget : Nat) :
    Except String (List Solution) :=
  .ok ((p.solutions.filter fun e => decide (proofTarget ≤ e.2.target)).map (·.2))

/-- Modelled from the spec: `candidate_coinbase_target(latest_proof_target)`
of the missing `memory_pool` module — a pure aggregation over the current
solutions (each solution contributes its target, counted when it meets the
latest proof target). -/
def MemoryPool.candidateCoinbaseTarget (p : MemoryPool)
    (latestProofTarget : Nat) : Except String Nat :=
  .ok (((p.solutions.filter fun e => decide (latestProofTarget ≤ e.2.target)).map
        fun e => e.2.target).sum)

/-- Modelled from the spec: `clear_invalid_transactions(ctx)` of the missing
`memory_pool` module — prunes the transactions now invalid given the new
ledger head and must not remove entries that remain valid; parameterized by
the (external) validity check `txValid`. -/
def MemoryPool.clearInvalidTransactions (p : MemoryPool)
    (txValid : Block → Tx → Bool) (head : Block) : MemoryPool :=
  { p with transactions := p.transactions.filter fun e => txValid head e.2 }

/-- Modelled from the spec: `clear_invalid_solutions(ctx)` of the missing
`memory_pool` module — prunes the solutions now invalid given the new
ledger head; parameterized by the (external) validity check `solValid`. -/
def MemoryPool.clearInvalidSolutions (p : MemoryPool)
    (solValid : Block → Solution → Bool) (head : Block) : MemoryPool :=
  { p with solutions := p.solutions.filter fun e => solValid head e.2 }

/-- Modelled from the spec: `clear_all_unconfirmed_solutions()` of the
missing `memory_pool` module — removes every unconfirmed solution. -/
def MemoryPool.clearAllUnconfirmedSolutions (p : MemoryPool) : MemoryPool :=
  { p with solutions := [] }

/-- The primary sender handle (identity only). -/
structure Sender where
  tag : Nat
  deriving DecidableEq

/-- The state of a `Consensus` instance: the ledger handle, the lazily-bound
primary sender (`Arc<OnceCell<PrimarySender>>` as an `Option`), the memory
pool, and the registry of spawned task handles. -/
structure ConsensusState where
  ledger : LedgerState
  primarySender : Option Sender
  memoryPool : MemoryPool
  handles : List Nat
  deriving DecidableEq

/-- Embeds `Consensus::advance_to_next_block` (lib.rs lines 203-221): append the
block to the ledger (propagating its error untouched on failure), then
unconditionally clear the now-invalid transactions, then — reading
`self.ledger.latest_epoch_number()` from the already-advanced ledger —
either clear all unconfirmed solutions (when the block's epoch number
exceeds it), or clear the now-invalid solutions (when the block carries a
coinbase), or leave the solutions alone. -/
def Consensus.advanceToNextBlock (txValid : Block → Tx → Bool)
    (solValid : Block → Solution → Bool) (st : ConsensusState) (b : Block) :
    Except String Unit × ConsensusState :=
  match st.ledger.advanceToNextBlock b with
  | .error e => (.error e, st)
  | .ok ledger1 =>
    let pool1 := st.memoryPool.clearInvalidTransactions txValid ledger1.latestBlock
    let pool2 :=
      if b.epochNumber > ledger1.latestEpochNumber then
        pool1.clearAllUnconfirmedSolutions
      else if b.hasCoinbase then
        pool1.clearInvalidSolutions solValid ledger1.latestBlock
      else
        pool1
    (.ok (), { st with ledger := ledger1, memoryPool := pool2 })

/-- Embeds `Consensus::is_coinbase_target_met` (lib.rs lines 170-179): compare the
cumulative proof target computed by the pool from the latest proof target
against the latest coinbase target (widened losslessly to `u128` in the
source, hence a plain `Nat` comparison here). -/
def Consensus.isCoinbaseTargetMet (st : ConsensusState) :
    Except String Bool × ConsensusState :=
  let latestProofTarget := st.ledger.latestProofTarget
  match st.memoryPool.candidateCoinbaseTarget latestProofTarget with
  | .error e => (.error e, st)
  | .ok cumulativeProofTarget =>
    let latestCoinbaseTarget := st.ledger.latestCoinbaseTarget
    (.ok (decide (latestCoinbaseTarget ≤ cumulativeProofTarget)), st)

/-- Embeds `Consensus::propose_next_block` (lib.rs lines 182-200): snapshot the
latest block and its height, proof target and coinbase target; select the
candidate transactions and candidate solutions from the memory pool; then
delegate block assembly to the ledger. -/
def Consensus.proposeNextBlock (st : ConsensusState) (privateKey rng : Nat) :
    Except String Block × ConsensusState :=
  let latestBlock := st.ledger.latestBlock
  let latestHeight := latestBlock.height
  let latestProofTarget := latestBlock.proofTarget
  let latestCoinbaseTarget := latestBlock.coinbaseTarget
  let transactions := st.memoryPool.candidateTransactions
  match st.memoryPool.candidateSolutions latestHeight latestProofTarget
      latestCoinbaseTarget with
  | .error e => (.error e, st)
  | .ok proverSolutions =>
    (st.ledger.prepareAdvanceToNextBlock privateKey transactions
        proverSolutions rng, st)

/-- The outcome of a call that may hit a programming-error fault (a Rust
`expect` panic), as distinct from any recoverable `Except` error return. -/
inductive CallOutcome (α : Type) where
  | fault (msg : String)
  | ret (a : α)
  deriving DecidableEq

/-- Embeds `Consensus::primary_sender` (lib.rs lines 124-126):
`self.primary_sender.get().expect("Primary sender not set")` — reading the
`OnceCell` before it is bound is a panic, not an error return. -/
def Consensus.primarySenderGet (st : ConsensusState) : CallOutcome Sender :=
  match st.primarySender with
  | none => .fault "Primary sender not set"
  | some s => .ret s

/-- The sender-binding step of `Consensus::run` (lib.rs line 103):
`self.primary_sender.set(...).expect("Primary sender already set")` — a
`OnceCell` set fails when a value is already present, and the `expect`
turns that into a panic, not an error return. -/
def Consensus.runBindSender (st : ConsensusState) (s : Sender) :
    CallOutcome ConsensusState :=
  match st.primarySender with
  | some _ => .fault "Primary sender already set"
  | none => .ret { st with primarySender := some s }

/-- Modelled from the spec: how the Ordering Engine's intake channel and the
per-call completion channel answer one submission — the intake send can fail
(channel closed), the completion receive can fail (sender dropped), or the
engine resolves the completion signal with its own result. -/
inductive EngineReply where
  | intakeClosed
  | callbackDropped
  | resolved (r : Except String Unit)
  deriving DecidableEq

/-- Modelled from the spec: the Ordering Engine at its interface boundary —
its reply to a transaction submission keyed by the forwarded pair
`(transaction.id(), payload)`, and to a solution submission keyed by the
forwarded pair `(solution.commitment(), payload)`. -/
structure Engine where
  replyTx : Nat × Tx → EngineReply
  replySol : Nat × Solution → EngineReply

/-- Embeds `Consensus::add_unconfirmed_transaction` (lib.rs lines 139-149): read
the primary sender (fault if unbound), create a fresh one-shot callback,
send `(transaction.id(), payload, callback)` on the intake channel
(`?`-propagating a closed-channel error), await the callback
(`?`-propagating a closed-channel error), and return the engine's
resolution. -/
def Consensus.addUnconfirmedTransaction (engine : Engine)
    (st : ConsensusState) (t : Tx) : CallOutcome (Except String Unit) :=
  match Consensus.primarySenderGet st with
  | .fault m => .fault m
  | .ret _ =>
    .ret (match engine.replyTx (t.id, t) with
      | .intakeClosed => .error "intake channel closed"
      | .callbackDropped => .error "completion channel closed"
      | .resolved r => r)

/-- Embeds `Consensus::add_unconfirmed_solution` (lib.rs lines 152-162): as for
transactions, forwarding `(solution.commitment(), payload, callback)` on
the solution intake channel. -/
def Consensus.addUnconfirmedSolution (engine : Engine)
    (st : ConsensusState) (s : Solution) : CallOutcome (Except String Unit) :=
  match Consensus.primarySenderGet st with
  | .fault m => .fault m
  | .ret _ =>
    .ret (match engine.replySol (s.commitment, s) with
      | .intakeClosed => .error "intake channel closed"
      | .callbackDropped => .error "completion channel closed"
      | .resolved r => r)

/-- An observable step of `Consensus::shut_down`. -/
inductive ShutdownEvent where
  | stopBFT
  | abortTask (h : Nat)
  | awaitTask (h : Nat)
  deriving DecidableEq

/-- The trace of `self.bft.shut_down().await` (lib.rs line 247). -/
def bftShutDownTrace : List ShutdownEvent :=
  [.stopBFT]

/-- The trace of
`self.handles.lock().iter().for_each(|handle| handle.abort())`
(lib.rs line 249): one abort per registered handle, in registry order. -/
def abortAllTrace (handles : List Nat) : List ShutdownEvent :=
  handles.map ShutdownEvent.abortTask

/-- Embeds `Consensus::shut_down` (lib.rs lines 244-250): first await the BFT
shutdown, then abort every registered handle. -/
def Consensus.shutDownTrace (st : ConsensusState) : List ShutdownEvent :=
  bftShutDownTrace ++ abortAllTrace st.handles

/-- Modelled from the spec: `MIN_STAKE`, the minimum stake threshold of the
committee module (not under the available sources); its numeric value is
immaterial to the claims. -/
def MIN_STAKE : Nat := 1000000000000

/-- A committee: the round it is valid from and the stake-weighted member
map (insertion-ordered, keyed by address). -/
structure Committee where
  startingRound : Nat
  members : List (Addr × Nat)
  deriving DecidableEq

/-- Modelled from the spec: `Committee::new(round, members)` of the
committee module (not under the available sources) — fails when any
member's stake is below the minimum stake threshold. -/
def Committee.new (round : Nat) (members : List (Addr × Nat)) :
    Except String Committee :=
  if members.all fun m => decide (MIN_STAKE ≤ m.2) then
    .ok { startingRound := round, members := members }
  else
    .error "stake below minimum"

/-- Embeds `IndexMap::insert`: overwrite the value in place when the key is
present, append the pair otherwise. -/
def indexMapInsert (m : List (Addr × Nat)) (k : Addr) (v : Nat) :
    List (Addr × Nat) :=
  if m.any fun e => decide (e.1 = k) then
    m.map fun e => if e.1 = k then (k, v) else e
  else
    m ++ [(k, v)]

/-- The member-sampling loop of `Consensus::new` (lib.rs lines 77-80):
`members.insert(Address::new(thread_rng().gen()), MIN_STAKE)` once per
drawn address; the draws of `thread_rng` are the `sampled` input. -/
def sampleMembers (sampled : List Addr) : List (Addr × Nat) :=
  sampled.foldl (fun m a => indexMapInsert m a MIN_STAKE) []

/-- The committee construction of `Consensus::new` (lib.rs lines 72-82):
build the sampled member map and call
`Committee::new(ledger.latest_round() + 1, members)`. -/
def consensusNewCommittee (latestRound : Nat) (sampled : List Addr) :
    Except String Committee :=
  Committee.new (latestRound + 1) (sampleMembers sampled)

/-- A transaction-validity check accepting everything (concrete instance for
closed evaluations). -/
def allTxValid : Block → Tx → Bool := fun _ _ => true

/-- A solution-validity check accepting everything (concrete instance for
closed evaluations). -/
def allSolValid : Block → Solution → Bool := fun _ _ => true

/-- A genesis-like chain head: height 0, epoch 0, no coinbase. -/
def genesisBlock : Block :=
  { height := 0, epochNumber := 0, proofTarget := 10, coinbaseTarget := 100,
    hasCoinbase := false }

/-- A block sitting directly on `genesisBlock` that starts a new epoch
(epoch 1 > prior epoch 0) and carries no coinbase. -/
def epochRolloverBlock : Block :=
  { height := 1, epochNumber := 1, proofTarget := 10, coinbaseTarget := 100,
    hasCoinbase := false }

/-- A consensus state at the genesis head whose pool holds one unconfirmed
solution. -/
def rolloverStartState : ConsensusState :=
  { ledger := { latestBlock := genesisBlock, priorBlocks := [] }
    primarySender := none
    memoryPool := { transactions := [], solutions := [(7, ⟨7, 5⟩)] }
    handles := [] }

/-- C1: the claim fails on the code, and the code contradicts its own
comment ("If this starts a new epoch, clear all unconfirmed solutions").
`advance_to_next_block` reads `self.ledger.latest_epoch_number()` only
after the ledger has already been advanced, so the comparison at lib.rs
line 211 pits the block's epoch number against itself and the clear-all
branch is unreachable: accepting `epochRolloverBlock` (epoch 1 over prior
epoch 0) succeeds, yet the pooled solution survives. -/
theorem advance_epoch_rollover_keeps_solutions :
    epochRolloverBlock.epochNumber > rolloverStartState.ledger.latestEpochNumber
    ∧ (Consensus.advanceToNextBlock allTxValid allSolValid rolloverStartState
        epochRolloverBlock).1 = .ok ()
    ∧ (Consensus.advanceToNextBlock allTxValid allSolValid rolloverStartState
        epochRolloverBlock).2.memoryPool.solutions
        = rolloverStartState.memoryPool.solutions
    ∧ rolloverStartState.memoryPool.solutions ≠ [] := by
  refine ⟨by decide, by decide, by decide, by decide⟩

/-- The three solution-pruning actions of `advance_to_next_block`. -/
inductive PruneAction where
  | clearAll
  | clearInvalidOnly
  | noPrune
  deriving DecidableEq

/-- Applies one solution-pruning action to a pool, against the new chain
head and the external solution-validity check. -/
def applyPruneAction (solValid : Block → Solution → Bool) (head : Block) :
    PruneAction → MemoryPool → MemoryPool
  | .clearAll, p => p.clearAllUnconfirmedSolutions
  | .clearInvalidOnly, p => p.clearInvalidSolutions solValid head
  | .noPrune, p => p

/-- The solution-pruning action `advance_to_next_block` executes, as a
function of the pair `(epoch_advanced, has_coinbase)` of the accepted
block.  Because the source reads `latest_epoch_number()` from the
already-advanced ledger, the executed branch depends on the pair only
through `has_coinbase` (the clear-all branch is unreachable). -/
def pruneActionForPair (epochAdvanced hasCoinbase : Bool) : PruneAction :=
  if hasCoinbase then .clearInvalidOnly else .noPrune

/-- C2: on every successful `advance_to_next_block`, the invalid
transactions are pruned unconditionally, and exactly one of the three
solution-pruning actions — the single value of `pruneActionForPair`, a
function of the pair `(epoch_advanced, has_coinbase)` of the accepted
block — is applied to the pool. -/
theorem advance_prune_exhaustive (txValid : Block → Tx → Bool)
    (solValid : Block → Solution → Bool) (st st' : ConsensusState) (b : Block)
    (h : Consensus.advanceToNextBlock txValid solValid st b = (.ok (), st')) :
    st'.memoryPool =
      applyPruneAction solValid b
        (pruneActionForPair
          (decide (st.ledger.latestEpochNumber < b.epochNumber)) b.hasCoinbase)
        (st.memoryPool.clearInvalidTransactions txValid b) := by
  by_cases hh : b.height = st.ledger.latestBlock.height + 1
  · simp only [Consensus.advanceToNextBlock, LedgerState.advanceToNextBlock,
      hh, if_true] at h
    simp only [LedgerState.latestEpochNumber, lt_irrefl, if_false,
      Prod.mk.injEq, true_and] at h
    cases hb : b.hasCoinbase <;>
      simp only [hb, if_true, if_false, Bool.false_eq_true] at h <;>
      simp [← h, applyPruneAction, pruneActionForPair, hb]
  · simp only [Consensus.advanceToNextBlock, LedgerState.advanceToNextBlock,
      hh, if_false] at h
    have hfst := congrArg Prod.fst h
    simp at hfst

/-- A block on the genesis head that carries a coinbase and stays in
epoch 0. -/
def coinbaseBlock : Block :=
  { height := 1, epochNumber := 0, proofTarget := 10, coinbaseTarget := 100,
    hasCoinbase := true }

/-- Witness state for the pruning-exhaustiveness theorem: genesis head, one
pending transaction, one pending solution. -/
def pruneWitnessState : ConsensusState :=
  { ledger := { latestBlock := genesisBlock, priorBlocks := [] }
    primarySender := none
    memoryPool := { transactions := [(1, ⟨1⟩)], solutions := [(7, ⟨7, 5⟩)] }
    handles := [] }

/-- Closed instance of `advance_prune_exhaustive` at a concrete
coinbase-carrying block. -/
theorem advance_prune_exhaustive_witness :
    (Consensus.advanceToNextBlock allTxValid allSolValid pruneWitnessState
        coinbaseBlock).2.memoryPool =
      applyPruneAction allSolValid coinbaseBlock
        (pruneActionForPair
          (decide (pruneWitnessState.ledger.latestEpochNumber
            < coinbaseBlock.epochNumber)) coinbaseBlock.hasCoinbase)
        (pruneWitnessState.memoryPool.clearInvalidTransactions allTxValid
          coinbaseBlock) :=
  advance_prune_exhaustive allTxValid allSolValid pruneWitnessState
    ((Consensus.advanceToNextBlock allTxValid allSolValid pruneWitnessState
      coinbaseBlock).2) coinbaseBlock rfl

/-- C3: when the Ledger's append step fails, `advance_to_next_block`
returns that very error and leaves the whole consensus state — in
particular both memory-pool entry collections — untouched. -/
theorem advance_ledger_failure_atomic (txValid : Block → Tx → Bool)
    (solValid : Block → Solution → Bool) (st : ConsensusState) (b : Block)
    (e : String) (h : st.ledger.advanceToNextBlock b = .error e) :
    Consensus.advanceToNextBlock txValid solValid st b = (.error e, st)
    ∧ (Consensus.advanceToNextBlock txValid solValid st b).2.memoryPool.transactions
        = st.memoryPool.transactions
    ∧ (Consensus.advanceToNextBlock txValid solValid st b).2.memoryPool.solutions
        = st.memoryPool.solutions := by
  have hmain : Consensus.advanceToNextBlock txValid solValid st b = (.error e, st) := by
    simp only [Consensus.advanceToNextBlock, h]
  exact ⟨hmain, by rw [hmain], by rw [hmain]⟩

/-- A block whose height does not sit on the genesis head, so the ledger
append rejects it. -/
def invalidHeightBlock : Block :=
  { height := 5, epochNumber := 0, proofTarget := 10, coinbaseTarget := 100,
    hasCoinbase := false }

/-- Closed instance of `advance_ledger_failure_atomic` at a block with an
invalid height. -/
theorem advance_ledger_failure_atomic_witness :
    Consensus.advanceToNextBlock allTxValid allSolValid pruneWitnessState
        invalidHeightBlock
      = (.error "ledger: block validation failed", pruneWitnessState)
    ∧ (Consensus.advanceToNextBlock allTxValid allSolValid pruneWitnessState
        invalidHeightBlock).2.memoryPool.transactions
        = pruneWitnessState.memoryPool.transactions
    ∧ (Consensus.advanceToNextBlock allTxValid allSolValid pruneWitnessState
        invalidHeightBlock).2.memoryPool.solutions
        = pruneWitnessState.memoryPool.solutions :=
  advance_ledger_failure_atomic allTxValid allSolValid pruneWitnessState
    invalidHeightBlock "ledger: block validation failed" rfl

/-- Helper: `is_coinbase_target_met` takes `&self` and writes nothing — the
embedded call leaves the consensus state exactly as it found it. -/
theorem isCoinbaseTargetMet_state_frame (st : ConsensusState) :
    (Consensus.isCoinbaseTargetMet st).2 = st := by
  unfold Consensus.isCoinbaseTargetMet
  cases hc : st.memoryPool.candidateCoinbaseTarget st.ledger.latestProofTarget <;>
    simp [hc]

/-- C4: `is_coinbase_target_met` answers `true` exactly when the cumulative
proof target that `candidate_coinbase_target` computes from the ledger's
latest proof target reaches the ledger's latest coinbase target, and the
call mutates nothing. -/
theorem coinbase_target_met_iff (st : ConsensusState) (t : Nat)
    (h : st.memoryPool.candidateCoinbaseTarget st.ledger.latestProofTarget
        = .ok t) :
    ((Consensus.isCoinbaseTargetMet st).1 = .ok true
        ↔ st.ledger.latestCoinbaseTarget ≤ t)
    ∧ (Consensus.isCoinbaseTargetMet st).2 = st := by
  refine ⟨?_, isCoinbaseTargetMet_state_frame st⟩
  simp only [Consensus.isCoinbaseTargetMet, h]
  simp

/-- Consensus state for the coinbase-target witnesses: proof target 10,
coinbase target 100, one pooled solution of target 50. -/
def targetWitnessState : ConsensusState :=
  { ledger := { latestBlock := genesisBlock, priorBlocks := [] }
    primarySender := none
    memoryPool := { transactions := [], solutions := [(7, ⟨7, 50⟩)] }
    handles := [] }

/-- Closed instance of `coinbase_target_met_iff`: the pooled cumulative
target 50 misses the coinbase target 100, so the query answers `false`. -/
theorem coinbase_target_met_iff_witness :
    ((Consensus.isCoinbaseTargetMet targetWitnessState).1 = .ok true
        ↔ targetWitnessState.ledger.latestCoinbaseTarget ≤ 50)
    ∧ (Consensus.isCoinbaseTargetMet targetWitnessState).2
        = targetWitnessState :=
  coinbase_target_met_iff targetWitnessState 50 rfl

/-- C9: two consecutive `is_coinbase_target_met` calls with no intervening
pool or ledger mutation return the same result. -/
theorem coinbase_target_met_idempotent (st : ConsensusState) :
    (Consensus.isCoinbaseTargetMet ((Consensus.isCoinbaseTargetMet st).2)).1
      = (Consensus.isCoinbaseTargetMet st).1 := by
  rw [isCoinbaseTargetMet_state_frame st]

/-- C5: `propose_next_block` mutates nothing — the state after the call is
the state before it — and the proposed block is a function only of the
latest-block snapshot and the memory pool's candidates: two states agreeing
on the latest block and the pool yield the same proposal. -/
theorem propose_next_block_pure (st st2 : ConsensusState)
    (privateKey rng : Nat)
    (hb : st.ledger.latestBlock = st2.ledger.latestBlock)
    (hp : st.memoryPool = st2.memoryPool) :
    (Consensus.proposeNextBlock st privateKey rng).2 = st
    ∧ (Consensus.proposeNextBlock st privateKey rng).1
        = (Consensus.proposeNextBlock st2 privateKey rng).1 := by
  constructor
  · unfold Consensus.proposeNextBlock MemoryPool.candidateSolutions
    simp
  · unfold Consensus.proposeNextBlock MemoryPool.candidateSolutions
      LedgerState.prepareAdvanceToNextBlock MemoryPool.candidateTransactions
    simp [hb, hp]

/-- A second consensus state for the proposal witness: same chain head and
pool as `targetWitnessState`, but different history, bound sender and task
registry. -/
def proposalOtherState : ConsensusState :=
  { ledger := { latestBlock := genesisBlock, priorBlocks := [genesisBlock] }
    primarySender := some ⟨9⟩
    memoryPool := { transactions := [], solutions := [(7, ⟨7, 50⟩)] }
    handles := [42] }

/-- Closed instance of `propose_next_block_pure` on two states agreeing
only on the latest block and the pool. -/
theorem propose_next_block_pure_witness :
    (Consensus.proposeNextBlock targetWitnessState 3 4).2 = targetWitnessState
    ∧ (Consensus.proposeNextBlock targetWitnessState 3 4).1
        = (Consensus.proposeNextBlock proposalOtherState 3 4).1 :=
  propose_next_block_pure targetWitnessState proposalOtherState 3 4 rfl rfl

/-- C6: the primary sender is set exactly once.  Reading it before `run`
has bound it hits the `expect("Primary sender not set")` panic; binding it
when already bound (a second `run`) hits the
`expect("Primary sender already set")` panic.  Both surface as the `fault`
outcome — a `CallOutcome.fault`, a different constructor from every
recoverable `ret` return. -/
theorem primary_sender_set_once (st : ConsensusState) (s s2 : Sender) :
    (st.primarySender = none →
      Consensus.primarySenderGet st = .fault "Primary sender not set")
    ∧ (∀ prev, st.primarySender = some prev →
      Consensus.runBindSender st s = .fault "Primary sender already set")
    ∧ (∀ st1, Consensus.runBindSender st s = .ret st1 →
      Consensus.runBindSender st1 s2 = .fault "Primary sender already set")
    ∧ (∀ m a, (CallOutcome.fault m : CallOutcome Sender) ≠ .ret a) := by
  refine ⟨?_, ?_, ?_, ?_⟩
  · intro hnone
    simp [Consensus.primarySenderGet, hnone]
  · intro prev hsome
    simp [Consensus.runBindSender, hsome]
  · intro st1 hbind
    cases hcell : st.primarySender with
    | some prev => simp [Consensus.runBindSender, hcell] at hbind
    | none =>
      simp only [Consensus.runBindSender, hcell] at hbind
      cases hbind
      simp [Consensus.runBindSender]
  · intro m a
    simp

/-- An unbound consensus state (fresh from `new`). -/
def unboundState : ConsensusState :=
  { ledger := { latestBlock := genesisBlock, priorBlocks := [] }
    primarySender := none
    memoryPool := { transactions := [], solutions := [] }
    handles := [] }

/-- Closed instance of `primary_sender_set_once`: reading before binding
faults, and binding twice faults. -/
theorem primary_sender_set_once_witness :
    Consensus.primarySenderGet unboundState = .fault "Primary sender not set"
    ∧ Consensus.runBindSender
        { unboundState with primarySender := some ⟨1⟩ } ⟨2⟩
        = .fault "Primary sender already set" :=
  ⟨(primary_sender_set_once unboundState ⟨1⟩ ⟨2⟩).1 rfl,
   (primary_sender_set_once
      { unboundState with primarySender := some ⟨1⟩ } ⟨2⟩ ⟨2⟩).2.1 ⟨1⟩ rfl⟩

/-- C7: after the sender is bound, a submission forwards the pair of the
content-derived id and the payload to the engine's intake and returns
exactly the resolution the engine signals on the completion channel; a
closed intake channel or a dropped completion channel yields a
channel-closed error return, never a success. -/
theorem submission_returns_engine_resolution (engine : Engine)
    (st : ConsensusState) (sndr : Sender)
    (hs : st.primarySender = some sndr) (t : Tx) (sol : Solution) :
    (∀ r, engine.replyTx (t.id, t) = .resolved r →
      Consensus.addUnconfirmedTransaction engine st t = .ret r)
    ∧ (engine.replyTx (t.id, t) = .intakeClosed →
      Consensus.addUnconfirmedTransaction engine st t
        = .ret (.error "intake channel closed"))
    ∧ (engine.replyTx (t.id, t) = .callbackDropped →
      Consensus.addUnconfirmedTransaction engine st t
        = .ret (.error "completion channel closed"))
    ∧ (∀ r, engine.replySol (sol.commitment, sol) = .resolved r →
      Consensus.addUnconfirmedSolution engine st sol = .ret r)
    ∧ (engine.replySol (sol.commitment, sol) = .intakeClosed →
      Consensus.addUnconfirmedSolution engine st sol
        = .ret (.error "intake channel closed"))
    ∧ (engine.replySol (sol.commitment, sol) = .callbackDropped →
      Consensus.addUnconfirmedSolution engine st sol
        = .ret (.error "completion channel closed")) := by
  refine ⟨?_, ?_, ?_, ?_, ?_, ?_⟩ <;>
    first
    | (intro r hr
       simp [Consensus.addUnconfirmedTransaction,
         Consensus.addUnconfirmedSolution, Consensus.primarySenderGet, hs, hr])
    | (intro hr
       simp [Consensus.addUnconfirmedTransaction,
         Consensus.addUnconfirmedSolution, Consensus.primarySenderGet, hs, hr])

/-- A concrete engine: resolves every transaction submission successfully,
and reports a closed intake channel for every solution submission. -/
def okThenClosedEngine : Engine :=
  { replyTx := fun _ => .resolved (.ok ())
    replySol := fun _ => .intakeClosed }

/-- A consensus state with the sender bound (post-`run`). -/
def boundState : ConsensusState :=
  { unboundState with primarySender := some ⟨1⟩ }

/-- Closed instance of `submission_returns_engine_resolution` under
`okThenClosedEngine`. -/
theorem submission_returns_engine_resolution_witness :
    Consensus.addUnconfirmedTransaction okThenClosedEngine boundState ⟨5⟩
      = .ret (.ok ())
    ∧ Consensus.addUnconfirmedSolution okThenClosedEngine boundState ⟨6, 60⟩
      = .ret (.error "intake channel closed") :=
  ⟨(submission_returns_engine_resolution okThenClosedEngine boundState ⟨1⟩
      rfl ⟨5⟩ ⟨6, 60⟩).1 (.ok ()) rfl,
   (submission_returns_engine_resolution okThenClosedEngine boundState ⟨1⟩
      rfl ⟨5⟩ ⟨6, 60⟩).2.2.2.2.1 rfl⟩

/-- C8: the shutdown trace stops the BFT first; only after that does it
abort every registered handle (each appears in the tail of the trace, in
registry order), and no task is ever awaited. -/
theorem shutdown_stops_bft_then_aborts_all (st : ConsensusState) :
    (Consensus.shutDownTrace st).head? = some .stopBFT
    ∧ (Consensus.shutDownTrace st).drop 1
        = st.handles.map ShutdownEvent.abortTask
    ∧ (∀ h ∈ st.handles,
        ShutdownEvent.abortTask h ∈ (Consensus.shutDownTrace st).drop 1)
    ∧ (∀ h, ShutdownEvent.awaitTask h ∉ Consensus.shutDownTrace st) := by
  refine ⟨rfl, rfl, ?_, ?_⟩
  · intro h hmem
    simpa [Consensus.shutDownTrace, bftShutDownTrace, abortAllTrace] using
      List.mem_map_of_mem ShutdownEvent.abortTask hmem
  · intro h hmem
    simp [Consensus.shutDownTrace, bftShutDownTrace, abortAllTrace] at hmem

/-- A consensus state with two registered background-task handles. -/
def twoTasksState : ConsensusState :=
  { unboundState with handles := [3, 5] }

/-- Closed instance of `shutdown_stops_bft_then_aborts_all` with two
registered handles. -/
theorem shutdown_stops_bft_then_aborts_all_witness :
    (Consensus.shutDownTrace twoTasksState).head? = some .stopBFT
    ∧ (Consensus.shutDownTrace twoTasksState).drop 1
        = [.abortTask 3, .abortTask 5]
    ∧ ShutdownEvent.abortTask 3 ∈ (Consensus.shutDownTrace twoTasksState).drop 1
    ∧ ShutdownEvent.awaitTask 3 ∉ Consensus.shutDownTrace twoTasksState :=
  ⟨(shutdown_stops_bft_then_aborts_all twoTasksState).1,
   (shutdown_stops_bft_then_aborts_all twoTasksState).2.1,
   (shutdown_stops_bft_then_aborts_all twoTasksState).2.2.1 3 (by decide),
   (shutdown_stops_bft_then_aborts_all twoTasksState).2.2.2 3⟩

/-- C10 fails as stated: the four sampled addresses are random draws, and
duplicate draws collapse in the `IndexMap`, so the built committee can have
fewer than 4 members.  Concretely, four identical draws yield a committee
of a single member. -/
theorem new_committee_duplicate_draws :
    ([3, 3, 3, 3] : List Addr).length = 4
    ∧ consensusNewCommittee 5 [3, 3, 3, 3]
        = .ok { startingRound := 6, members := [(3, MIN_STAKE)] }
    ∧ ([(3, MIN_STAKE)] : List (Addr × Nat)).length ≠ 4 := by
  refine ⟨rfl, by decide, by decide⟩

/-- Helper: inserting a `MIN_STAKE`-staked member keeps every stake at
`MIN_STAKE`. -/
theorem indexMapInsert_stakes (m : List (Addr × Nat)) (a : Addr)
    (hm : ∀ e ∈ m, e.2 = MIN_STAKE) :
    ∀ e ∈ indexMapInsert m a MIN_STAKE, e.2 = MIN_STAKE := by
  intro e he
  unfold indexMapInsert at he
  split at he
  · obtain ⟨x, hx, hxe⟩ := List.mem_map.1 he
    by_cases hk : x.1 = a
    · rw [if_pos hk] at hxe
      rw [← hxe]
    · rw [if_neg hk] at hxe
      exact hxe ▸ hm x hx
  · rcases List.mem_append.1 he with h1 | h2
    · exact hm e h1
    · simp only [List.mem_singleton] at h2
      rw [h2]

/-- Helper: the member-sampling fold only ever assigns stake `MIN_STAKE`. -/
theorem sampleMembers_fold_stakes (l : List Addr) (acc : List (Addr × Nat))
    (hacc : ∀ e ∈ acc, e.2 = MIN_STAKE) :
    ∀ e ∈ l.foldl (fun m a => indexMapInsert m a MIN_STAKE) acc,
      e.2 = MIN_STAKE := by
  induction l generalizing acc with
  | nil => simpa using hacc
  | cons a l ih =>
    intro e he
    exact ih (indexMapInsert acc a MIN_STAKE)
      (indexMapInsert_stakes acc a hacc) e he

/-- Helper: one insert grows the member map by at most one entry. -/
theorem indexMapInsert_length (m : List (Addr × Nat)) (a : Addr) (v : Nat) :
    (indexMapInsert m a v).length ≤ m.length + 1 := by
  unfold indexMapInsert
  split
  · simp
  · simp

/-- Helper: the member-sampling fold yields at most one member per draw. -/
theorem sampleMembers_fold_length (l : List Addr) (acc : List (Addr × Nat)) :
    (l.foldl (fun m a => indexMapInsert m a MIN_STAKE) acc).length
      ≤ acc.length + l.length := by
  induction l generalizing acc with
  | nil => simp
  | cons a l ih =>
    have h1 := ih (indexMapInsert acc a MIN_STAKE)
    have h2 := indexMapInsert_length acc a MIN_STAKE
    simp only [List.foldl_cons, List.length_cons]
    omega

/-- Helper: inserting an address absent from the map appends it. -/
theorem indexMapInsert_notmem (m : List (Addr × Nat)) (a : Addr) (v : Nat)
    (hnot : ∀ e ∈ m, e.1 ≠ a) :
    indexMapInsert m a v = m ++ [(a, v)] := by
  have hfalse : ¬ (m.any fun e => decide (e.1 = a)) = true := by
    simp only [List.any_eq_true, decide_eq_true_eq]
    rintro ⟨e, he, hea⟩
    exact hnot e he hea
  unfold indexMapInsert
  rw [if_neg hfalse]

/-- Helper: distinct draws disjoint from the accumulator each append one
member. -/
theorem sampleMembers_fold_nodup_length (l : List Addr)
    (acc : List (Addr × Nat)) (hnd : l.Nodup)
    (hdisj : ∀ b ∈ l, ∀ e ∈ acc, e.1 ≠ b) :
    (l.foldl (fun m a => indexMapInsert m a MIN_STAKE) acc).length
      = acc.length + l.length := by
  induction l generalizing acc with
  | nil => simp
  | cons a l ih =>
    have hins : indexMapInsert acc a MIN_STAKE = acc ++ [(a, MIN_STAKE)] :=
      indexMapInsert_notmem acc a MIN_STAKE
        (fun e he => hdisj a (by simp) e he)
    have hna : a ∉ l := (List.nodup_cons.1 hnd).1
    have hdisj2 : ∀ b ∈ l, ∀ e ∈ indexMapInsert acc a MIN_STAKE, e.1 ≠ b := by
      intro b hb e he
      rw [hins] at he
      rcases List.mem_append.1 he with h1 | h2
      · exact hdisj b (by simp [hb]) e h1
      · simp only [List.mem_singleton] at h2
        rw [h2]
        intro hab
        have hab2 : a = b := hab
        exact hna (by rw [hab2]; exact hb)
    have hrec := ih (indexMapInsert acc a MIN_STAKE)
      (List.nodup_cons.1 hnd).2 hdisj2
    have hlen : (indexMapInsert acc a MIN_STAKE).length = acc.length + 1 := by
      rw [hins]
      simp
    simp only [List.foldl_cons] at hrec ⊢
    simp only [List.length_cons]
    omega

/-- C10 amended: the committee built by `Consensus::new` always
constructs successfully at round `latest_round + 1`, every member holds
exactly `MIN_STAKE` (so the stake-below-minimum failure is unreachable),
and it has one member per distinct sampled address — exactly 4 members
when the 4 sampled addresses are distinct, possibly fewer on duplicate
draws. -/
theorem new_committee_amended (latestRound : Nat) (sampled : List Addr) :
    ∃ c, consensusNewCommittee latestRound sampled = .ok c
      ∧ c.startingRound = latestRound + 1
      ∧ (∀ m ∈ c.members, m.2 = MIN_STAKE)
      ∧ c.members.length ≤ sampled.length
      ∧ (sampled.Nodup → c.members.length = sampled.length) := by
  have hstakes : ∀ e ∈ sampleMembers sampled, e.2 = MIN_STAKE :=
    sampleMembers_fold_stakes sampled [] (by simp)
  have hall : ((sampleMembers sampled).all fun m => decide (MIN_STAKE ≤ m.2))
      = true := by
    rw [List.all_eq_true]
    intro e he
    simp [hstakes e he]
  have hok : consensusNewCommittee latestRound sampled
      = .ok ⟨latestRound + 1, sampleMembers sampled⟩ := by
    unfold consensusNewCommittee Committee.new
    rw [if_pos hall]
  refine ⟨⟨latestRound + 1, sampleMembers sampled⟩, hok, rfl, hstakes, ?_, ?_⟩
  · simpa [sampleMembers] using sampleMembers_fold_length sampled []
  · intro hnd
    simpa [sampleMembers] using
      sampleMembers_fold_nodup_length sampled [] hnd (by simp)

/-- Closed instance of `new_committee_amended` at four distinct draws: the
committee builds, at round 6, all stakes `MIN_STAKE`, with all 4 members. -/
theorem new_committee_amended_witness :
    ∃ c, consensusNewCommittee 5 [10, 20, 30, 40] = .ok c
      ∧ c.startingRound = 5 + 1
      ∧ (∀ m ∈ c.members, m.2 = MIN_STAKE)
      ∧ c.members.length = ([10, 20, 30, 40] : List Addr).length := by
  obtain ⟨c, h1, h2, h3, _, h5⟩ := new_committee_amended 5 [10, 20, 30, 40]
  exact ⟨c, h1, h2, h3, h5 (by decide)⟩
